import Mathlib

/-!
Verification of the PA form-filling system (frontend `PAProcessor.js`,
`StatusIndicator.js`, and the document-understanding pipeline of the
design document).

The core pipeline (Text Extractor, Evidence Matcher, Conflict Resolver)
is specified by the design document but its implementation is not part of
the visible sources, so those components are modelled here directly from
the specification text (each such definition says so in its doc comment).
The frontend component logic is embedded from the JavaScript sources.

Confidences, specified as floats in [0,1], are modelled as natural
numbers in fixed integer units (e.g. hundredths), since the resolution
logic only ever compares confidences against each other and against the
threshold; the spec's boundary property speaks of values "one unit
below" the threshold, which is exact in this representation.
-/

namespace PAPipeline

/-- Modelled from the spec: a `TextBlock` produced by the Text Extractor
(§3): recognized text with its page, its source (typed or OCR) and a
confidence. The bounding box is omitted: no modelled component reads it. -/
structure TextBlock where
  text : String
  page : Nat
  ocr : Bool
  confidence : Nat
deriving DecidableEq

/-- Modelled from the spec: a `FormField` (§3): one fillable location in
the PA form, with its label, page and vertical position (standing for the
bounding box, of which only page and top-to-bottom order are ever used by
the resolver's document-order tie-break). -/
structure FormField where
  id : Nat
  label : String
  page : Nat
  top : Nat
deriving DecidableEq

/-- Modelled from the spec: a `FieldGroup` (§3): a set of field ids,
tagged `exclusive` when at most one member may be active. -/
structure FieldGroup where
  members : List Nat
  exclusive : Bool
deriving DecidableEq

/-- Modelled from the spec: a `FieldDependency` (§3): dependents are only
eligible when the trigger field is selected with the given value. -/
structure FieldDependency where
  triggerField : Nat
  triggerValue : String
  dependents : List Nat
deriving DecidableEq

/-- Modelled from the spec: an `EvidenceCandidate` (§3) produced by the
Evidence Matcher: a proposed value for a field with a confidence. Source
block ids are omitted: the resolver never reads them. -/
structure EvidenceCandidate where
  fieldId : Nat
  value : String
  confidence : Nat
deriving DecidableEq

/-- Modelled from the spec: a `ResolvedField` (§3). -/
structure ResolvedField where
  fieldId : Nat
  value : String
  confidence : Nat
deriving DecidableEq

/-- Modelled from the spec: the reason taxonomy of the
`MissingFieldReport` (§3). -/
inductive Reason where
  | noEvidence
  | belowConfidenceThreshold
  | excludedByDependency
  | excludedByExclusivity
deriving DecidableEq

/-- Modelled from the spec: one entry of the `MissingFieldReport` (§3). -/
structure ReportEntry where
  fieldId : Nat
  label : String
  reason : Reason
deriving DecidableEq

/-- Modelled from the spec (§4.5 step 1): a field survives the threshold
step when some candidate for it reaches the configurable `minConfidence`
threshold; the boundary property (§8) makes the comparison inclusive. -/
def survives (minConf : Nat) (cands : List EvidenceCandidate) (fid : Nat) : Bool :=
  cands.any (fun c => c.fieldId == fid && decide (minConf ≤ c.confidence))

/-- Modelled from the spec (§4.4): the candidates proposed for one field. -/
def candidatesFor (cands : List EvidenceCandidate) (fid : Nat) : List EvidenceCandidate :=
  cands.filter (fun c => c.fieldId == fid)

/-- Modelled from the spec (§3, §4.4): candidates are ranked by
confidence and at most one — the highest-confidence one — is promoted
per field. -/
def bestCandidate (cands : List EvidenceCandidate) (fid : Nat) : Option EvidenceCandidate :=
  match candidatesFor cands fid with
  | [] => none
  | h :: t => some (t.foldl (fun b c => if b.confidence < c.confidence then c else b) h)

/-- Modelled from the spec: the confidence of a field's best candidate
(0 when the field has no candidate). -/
def bestConfidence (cands : List EvidenceCandidate) (fid : Nat) : Nat :=
  match bestCandidate cands fid with
  | some c => c.confidence
  | none => 0

/-- Modelled from the spec (§4.5 tie-break): strict document order on
fields — earlier page first, then top-to-bottom position. -/
def docBefore (a b : FormField) : Bool :=
  a.page < b.page || (a.page == b.page && a.top < b.top)

/-- Modelled from the spec (§4.5 step 2): of two fields, prefer the one
with the higher-confidence best candidate, breaking exact ties in favour
of the field that comes first in document order. -/
def pickBetter (cands : List EvidenceCandidate) (b f : FormField) : FormField :=
  if bestConfidence cands b.id < bestConfidence cands f.id then f
  else if bestConfidence cands f.id == bestConfidence cands b.id && docBefore f b then f
  else b

/-- Auxiliary ordering predicate used to state properties of the
exclusivity winner: `w` beats `f` when `w`'s best confidence is strictly
higher, or equal with `f` not strictly earlier in document order. -/
def beats (cands : List EvidenceCandidate) (w f : FormField) : Prop :=
  bestConfidence cands f.id < bestConfidence cands w.id ∨
    (bestConfidence cands f.id = bestConfidence cands w.id ∧ docBefore f w = false)

/-- Modelled from the spec (§4.5 step 2): the members of a group that
survived the confidence-threshold step. -/
def survivingMembers (fields : List FormField) (minConf : Nat)
    (cands : List EvidenceCandidate) (g : FieldGroup) : List FormField :=
  fields.filter (fun f => decide (f.id ∈ g.members) && survives minConf cands f.id)

/-- Modelled from the spec (§4.5 step 2): among the surviving members of
a group, the single highest-confidence field, document-order tie-broken. -/
def groupWinnerField (fields : List FormField) (minConf : Nat)
    (cands : List EvidenceCandidate) (g : FieldGroup) : Option FormField :=
  match survivingMembers fields minConf cands g with
  | [] => none
  | h :: t => some (t.foldl (pickBetter cands) h)

/-- Modelled from the spec (§4.5 steps 1–2): a field is still active
after the exclusivity step when it survived the threshold and is the
selected winner of every exclusive group it belongs to. -/
def activeAfterExclusivity (fields : List FormField) (groups : List FieldGroup)
    (minConf : Nat) (cands : List EvidenceCandidate) (fid : Nat) : Bool :=
  survives minConf cands fid &&
  groups.all (fun g =>
    !g.exclusive || !(decide (fid ∈ g.members)) ||
      decide ((groupWinnerField fields minConf cands g).map (fun w => w.id) = some fid))

/-- Modelled from the spec (§4.5): the ids active after steps 1–2, in
form order. -/
def activeAfterStep2 (fields : List FormField) (groups : List FieldGroup)
    (minConf : Nat) (cands : List EvidenceCandidate) : List Nat :=
  (fields.filter (fun f => activeAfterExclusivity fields groups minConf cands f.id)).map
    (fun f => f.id)

/-- Modelled from the spec (§4.5 step 3): a dependency's trigger is
satisfied when the trigger field is active and its promoted value is the
dependency's required value. -/
def triggerActive (cands : List EvidenceCandidate) (active : List Nat)
    (d : FieldDependency) : Bool :=
  decide (d.triggerField ∈ active) &&
  (match bestCandidate cands d.triggerField with
   | some c => decide (c.value = d.triggerValue)
   | none => false)

/-- Modelled from the spec (§4.5 step 3): a field may stay active only if
every dependency naming it as a dependent has its trigger satisfied. -/
def depOk (cands : List EvidenceCandidate) (deps : List FieldDependency)
    (active : List Nat) (fid : Nat) : Bool :=
  deps.all (fun d => !(decide (fid ∈ d.dependents)) || triggerActive cands active d)

/-- Modelled from the spec (§4.5 step 3): one pass of dependency
filtering over the active set. -/
def depStep (cands : List EvidenceCandidate) (deps : List FieldDependency)
    (active : List Nat) : List Nat :=
  active.filter (depOk cands deps active)

/-- Modelled from the spec (§4.5): dependency filtering repeated to a
fixed point (the output is required to be dependency-consistent, so a
dependent whose trigger was itself deactivated must also be dropped);
the fuel bounds the iteration, one unit per possible removal. -/
def depFixAux (cands : List EvidenceCandidate) (deps : List FieldDependency) :
    Nat → List Nat → List Nat
  | 0, active => active
  | Nat.succ n, active => depFixAux cands deps n (depStep cands deps active)

/-- Modelled from the spec (§4.5): the final active field ids, after
threshold, exclusivity and dependency-consistent filtering. -/
def finalActive (fields : List FormField) (groups : List FieldGroup)
    (deps : List FieldDependency) (minConf : Nat)
    (cands : List EvidenceCandidate) : List Nat :=
  depFixAux cands deps
    (activeAfterStep2 fields groups minConf cands).length
    (activeAfterStep2 fields groups minConf cands)

/-- Modelled from the spec (§4.5 output): each final-active field is
resolved to its best candidate's value and confidence. -/
def resolvedFields (fields : List FormField) (groups : List FieldGroup)
    (deps : List FieldDependency) (minConf : Nat)
    (cands : List EvidenceCandidate) : List ResolvedField :=
  fields.filterMap (fun f =>
    if f.id ∈ finalActive fields groups deps minConf cands then
      (bestCandidate cands f.id).map (fun c => ⟨f.id, c.value, c.confidence⟩)
    else none)

/-- Modelled from the spec (§4.5 steps 1–4): the report reason for a
non-resolved field, following the order of the resolution steps: no
candidate at all is `no-evidence`; candidates but none at threshold is
`below-confidence-threshold`; losing an exclusive group is
`excluded-by-exclusivity`; otherwise the field fell to dependency
filtering, `excluded-by-dependency`. -/
def reasonFor (fields : List FormField) (groups : List FieldGroup)
    (deps : List FieldDependency) (minConf : Nat)
    (cands : List EvidenceCandidate) (f : FormField) : Option Reason :=
  if f.id ∈ finalActive fields groups deps minConf cands then none
  else if cands.all (fun c => !(c.fieldId == f.id)) then some Reason.noEvidence
  else if !(survives minConf cands f.id) then some Reason.belowConfidenceThreshold
  else if !(activeAfterExclusivity fields groups minConf cands f.id) then
    some Reason.excludedByExclusivity
  else some Reason.excludedByDependency

/-- Modelled from the spec (§3, §4.5): the `MissingFieldReport`, one
entry per non-resolved field, in form order. -/
def missingReport (fields : List FormField) (groups : List FieldGroup)
    (deps : List FieldDependency) (minConf : Nat)
    (cands : List EvidenceCandidate) : List ReportEntry :=
  fields.filterMap (fun f =>
    (reasonFor fields groups deps minConf cands f).map (fun r => ⟨f.id, f.label, r⟩))

/-- Modelled from the spec (§4.5): the Conflict Resolver / Branch
Selector: from the candidate set, the groups and the dependencies,
produce the resolved field set and the missing-field report. -/
def resolve (fields : List FormField) (groups : List FieldGroup)
    (deps : List FieldDependency) (minConf : Nat)
    (cands : List EvidenceCandidate) : List ResolvedField × List ReportEntry :=
  (resolvedFields fields groups deps minConf cands,
   missingReport fields groups deps minConf cands)

/-- Modelled from the spec (§4.1): the outcome of processing one page of
a document — either its text blocks (typed pages, or OCR succeeding) or
an OCR failure, which yields no blocks for that page. -/
inductive PageOutcome where
  | pageOk (blocks : List TextBlock)
  | pageFailed
deriving DecidableEq

/-- Modelled from the spec (§4.1): whether a page's extraction failed. -/
def pageIsFailed : PageOutcome → Bool
  | PageOutcome.pageFailed => true
  | PageOutcome.pageOk _ => false

/-- Modelled from the spec (§4.1): the text blocks of a document,
concatenated page by page; a failed page contributes zero blocks. -/
def collectBlocks : List PageOutcome → List TextBlock
  | [] => []
  | PageOutcome.pageOk bs :: ps => bs ++ collectBlocks ps
  | PageOutcome.pageFailed :: ps => collectBlocks ps

/-- Modelled from the spec (§4.1): the page-level warnings, one per
failed page, recorded as the page's index counted from `i`. -/
def warningsFrom (i : Nat) : List PageOutcome → List Nat
  | [] => []
  | PageOutcome.pageFailed :: ps => i :: warningsFrom (i + 1) ps
  | PageOutcome.pageOk _ :: ps => warningsFrom (i + 1) ps

/-- Modelled from the spec (§7): the error taxonomy entry signalled by
the Text Extractor for a fully unreadable document. -/
inductive ExtractError where
  | extractionFailed
deriving DecidableEq

/-- Modelled from the spec (§4.1): the Text Extractor. Per-page OCR
failure is non-fatal: the page yields zero blocks plus a page-level
warning and extraction continues; only a fully unreadable document (all
pages failed) signals `ExtractionFailed`. -/
def extractText (pages : List PageOutcome) :
    Except ExtractError (List TextBlock × List Nat) :=
  if pages.all pageIsFailed then Except.error ExtractError.extractionFailed
  else Except.ok (collectBlocks pages, warningsFrom 0 pages)

/-- Modelled from the spec (§4.4): the Evidence Matcher, whose fuzzy
lexical shortlisting and LLM extraction are external black boxes; it is
modelled as proposing, for each field, a candidate per referral text
block whose text matches the field's label, at the block's confidence.
With no referral text blocks it proposes no candidates. -/
def matchEvidence (blocks : List TextBlock) (fields : List FormField) :
    List EvidenceCandidate :=
  (fields.map (fun f =>
    (blocks.filter (fun b => b.text == f.label)).map
      (fun b => EvidenceCandidate.mk f.id b.text b.confidence))).flatten

/-- Modelled from the spec (§2 control flow, §8 scenario): one case's
pipeline over a form document and a referral document. The form side
must extract (its failure is the case's failure); an unreadable referral
degrades to zero evidence rather than failing the case, per the spec's
scenario that an all-pages-OCR-failed referral yields a `no-evidence`
report for every field. -/
def casePipeline (fields : List FormField) (groups : List FieldGroup)
    (deps : List FieldDependency) (minConf : Nat)
    (formPages referralPages : List PageOutcome) :
    Except ExtractError (List ResolvedField × List ReportEntry) :=
  match extractText formPages with
  | Except.error e => Except.error e
  | Except.ok _ =>
    let referralBlocks :=
      match extractText referralPages with
      | Except.ok br => br.1
      | Except.error _ => []
    Except.ok (resolve fields groups deps minConf (matchEvidence referralBlocks fields))

end PAPipeline

namespace Frontend

/-! Embedding of `src/frontend/src/components/PAProcessor.js` and
`StatusIndicator.js`. Uploaded documents are modelled by their file
names; a `File` variable holding `null` is `Option.none`. -/

/-- The component state of `PAProcessor`: the five `useState` hooks
`document1`, `document2`, `status`, `resultUrl`, `errorMessage`
(PAProcessor.js lines 7–11). The JS status strings are kept as strings. -/
structure PAState where
  document1 : Option String
  document2 : Option String
  status : String
  resultUrl : Option String
  errorMessage : String
deriving DecidableEq

/-- The initial state on mount: `useState(null)`, `useState(null)`,
`useState('waiting')`, `useState(null)`, `useState('')`. -/
def initialState : PAState :=
  { document1 := none, document2 := none, status := "waiting",
    resultUrl := none, errorMessage := "" }

/-- The outcome of the `fetch('/api/v1/process')` call in
`handleProcess`: a successful response whose blob becomes an object URL,
an HTTP error response (whose JSON body may carry a `detail` string —
`none` also covers a non-JSON body), or a thrown network error. -/
inductive FetchResult where
  | okBlob (url : String)
  | httpError (detail : Option String)
  | networkError
deriving DecidableEq

/-- The error message shown for an HTTP error response:
`errorData.detail || 'Processing failed. Please try again.'` — a missing,
non-JSON or empty (falsy) `detail` falls back to the default. -/
def errorDetailMessage (detail : Option String) : String :=
  match detail with
  | some d => if d = "" then "Processing failed. Please try again." else d
  | none => "Processing failed. Please try again."

/-- `handleProcess` (PAProcessor.js lines 13–51), as a function of the
current state and of the fetch outcome. It returns the final state and
the form data sent, `none` when no request was issued: with either
document missing it only sets the error message and returns before the
fetch; otherwise it posts form data with `document1` appended under the
key `referral_document` and `document2` under `pa_form`, then sets the
result state according to the response. -/
def handleProcess (s : PAState) (resp : FetchResult) :
    PAState × Option (List (String × String)) :=
  match s.document1, s.document2 with
  | some d1, some d2 =>
    let s1 := { s with status := "processing", errorMessage := "" }
    let formData := [("referral_document", d1), ("pa_form", d2)]
    match resp with
    | FetchResult.okBlob url =>
        ({ s1 with resultUrl := some url, status := "done" }, some formData)
    | FetchResult.httpError detail =>
        ({ s1 with errorMessage := errorDetailMessage detail, status := "error" },
         some formData)
    | FetchResult.networkError =>
        ({ s1 with
            errorMessage := "Network error. Please check your connection and try again.",
            status := "error" },
         some formData)
  | _, _ =>
    ({ s with errorMessage := "Please upload both documents before processing." }, none)

/-- `resetForm` (PAProcessor.js lines 65–71): sets each of the five
state hooks back to its initial value. -/
def resetForm (s : PAState) : PAState :=
  { s with document1 := none, document2 := none, status := "waiting",
           resultUrl := none, errorMessage := "" }

/-- One entry of `statusMap` in StatusIndicator.js; the JSX icon element
is modelled by the icon component's name. -/
structure StatusEntry where
  color : String
  text : String
  icon : String
deriving DecidableEq

/-- The `waiting` entry of `statusMap`. -/
def waitingEntry : StatusEntry :=
  { color := "status-gray", text := "Waiting for upload", icon := "Clock" }

/-- The `statusMap` object literal of StatusIndicator.js, as an
association list from status string to entry. -/
def statusMap : List (String × StatusEntry) :=
  [("waiting", waitingEntry),
   ("processing", { color := "status-blue", text := "Processing...", icon := "Loader2" }),
   ("done", { color := "status-green", text := "Done", icon := "CheckCircle" }),
   ("error", { color := "status-red", text := "Error", icon := "AlertCircle" })]

/-- The destructured entry in `StatusIndicator`:
`statusMap[status] || statusMap['waiting']` — an unknown status key reads
`undefined`, which is falsy, so the `waiting` entry is used instead. -/
def statusIndicatorEntry (status : String) : StatusEntry :=
  match statusMap.lookup status with
  | some e => e
  | none => waitingEntry

end Frontend

namespace PAPipeline

/-! Lemmas about the document order and the exclusivity winner. -/

theorem docBefore_iff (a b : FormField) :
    docBefore a b = true ↔ (a.page < b.page ∨ (a.page = b.page ∧ a.top < b.top)) := by
  simp [docBefore]

theorem docBefore_self (a : FormField) : docBefore a a = false := by
  simp [docBefore]

theorem docBefore_asymm {a b : FormField} (h : docBefore a b = true) :
    docBefore b a = false := by
  rw [docBefore_iff] at h
  rw [Bool.eq_false_iff, Ne, docBefore_iff]
  omega

theorem docBefore_negtrans {a b c : FormField} (h1 : docBefore a b = false)
    (h2 : docBefore b c = false) : docBefore a c = false := by
  rw [Bool.eq_false_iff, Ne, docBefore_iff] at h1 h2 ⊢
  omega

theorem beats_self (cands : List EvidenceCandidate) (a : FormField) :
    beats cands a a :=
  Or.inr ⟨rfl, docBefore_self a⟩

theorem beats_trans {cands : List EvidenceCandidate} {a b c : FormField}
    (h1 : beats cands a b) (h2 : beats cands b c) : beats cands a c := by
  rcases h1 with h1 | ⟨h1e, h1d⟩
  · rcases h2 with h2 | ⟨h2e, _⟩
    · exact Or.inl (lt_trans h2 h1)
    · exact Or.inl (h2e ▸ h1)
  · rcases h2 with h2 | ⟨h2e, h2d⟩
    · exact Or.inl (h1e ▸ h2)
    · exact Or.inr ⟨h2e.trans h1e, docBefore_negtrans h2d h1d⟩

theorem pickBetter_or (cands : List EvidenceCandidate) (b f : FormField) :
    pickBetter cands b f = b ∨ pickBetter cands b f = f := by
  unfold pickBetter
  split_ifs <;> simp

theorem pickBetter_beats_left (cands : List EvidenceCandidate) (b f : FormField) :
    beats cands (pickBetter cands b f) b := by
  unfold pickBetter
  split_ifs with h1 h2
  · exact Or.inl h1
  · rw [Bool.and_eq_true] at h2
    exact Or.inr ⟨(beq_iff_eq.mp h2.1).symm, docBefore_asymm h2.2⟩
  · exact beats_self cands b

theorem pickBetter_beats_right (cands : List EvidenceCandidate) (b f : FormField) :
    beats cands (pickBetter cands b f) f := by
  unfold pickBetter
  split_ifs with h1 h2
  · exact beats_self cands f
  · exact beats_self cands f
  · rcases Nat.lt_or_ge (bestConfidence cands f.id) (bestConfidence cands b.id) with hlt | hge
    · exact Or.inl hlt
    · have he : bestConfidence cands f.id = bestConfidence cands b.id :=
        Nat.le_antisymm (Nat.le_of_not_lt h1) hge
      refine Or.inr ⟨he, ?_⟩
      rcases Bool.and_eq_false_iff.mp (Bool.of_not_eq_true h2) with hb | hb
      · exact absurd (beq_iff_eq.mpr he) (by simp [hb])
      · exact hb

theorem foldl_pickBetter_mem (cands : List EvidenceCandidate) :
    ∀ (t : List FormField) (h : FormField), t.foldl (pickBetter cands) h ∈ h :: t := by
  intro t
  induction t with
  | nil => intro h; simp
  | cons x t ih =>
    intro h
    simp only [List.foldl_cons]
    rcases List.mem_cons.mp (ih (pickBetter cands h x)) with hm | hm
    · rw [hm]
      rcases pickBetter_or cands h x with hp | hp <;> rw [hp]
      · exact List.mem_cons_self _ _
      · exact List.mem_cons_of_mem _ (List.mem_cons_self _ _)
    · exact List.mem_cons_of_mem _ (List.mem_cons_of_mem _ hm)

theorem foldl_pickBetter_beats (cands : List EvidenceCandidate) :
    ∀ (t : List FormField) (h f : FormField), f ∈ h :: t →
      beats cands (t.foldl (pickBetter cands) h) f := by
  intro t
  induction t with
  | nil =>
    intro h f hf
    rcases List.mem_cons.mp hf with hf | hf
    · exact hf ▸ beats_self cands h
    · exact absurd hf (List.not_mem_nil f)
  | cons x t ih =>
    intro h f hf
    simp only [List.foldl_cons]
    have hres : beats cands (t.foldl (pickBetter cands) (pickBetter cands h x))
        (pickBetter cands h x) :=
      ih (pickBetter cands h x) (pickBetter cands h x) (List.mem_cons_self _ _)
    rcases List.mem_cons.mp hf with hf1 | hf2
    · subst hf1
      exact beats_trans hres (pickBetter_beats_left cands f x)
    · rcases List.mem_cons.mp hf2 with hf3 | hf4
      · subst hf3
        exact beats_trans hres (pickBetter_beats_right cands h f)
      · exact ih (pickBetter cands h x) f (List.mem_cons_of_mem _ hf4)

theorem groupWinnerField_beats {fields : List FormField} {minConf : Nat}
    {cands : List EvidenceCandidate} {g : FieldGroup} {w f : FormField}
    (hw : groupWinnerField fields minConf cands g = some w)
    (hf : f ∈ survivingMembers fields minConf cands g) :
    beats cands w f := by
  unfold groupWinnerField at hw
  rcases heq : survivingMembers fields minConf cands g with _ | ⟨h, t⟩
  · rw [heq] at hw; exact absurd hw (by simp)
  · rw [heq] at hw hf
    simp only [Option.some.injEq] at hw
    exact hw ▸ foldl_pickBetter_beats cands t h f hf

theorem groupWinnerField_mem {fields : List FormField} {minConf : Nat}
    {cands : List EvidenceCandidate} {g : FieldGroup} {w : FormField}
    (hw : groupWinnerField fields minConf cands g = some w) :
    w ∈ survivingMembers fields minConf cands g := by
  unfold groupWinnerField at hw
  rcases heq : survivingMembers fields minConf cands g with _ | ⟨h, t⟩
  · rw [heq] at hw; exact absurd hw (by simp)
  · rw [heq] at hw
    simp only [Option.some.injEq] at hw
    exact hw ▸ foldl_pickBetter_mem cands t h

end PAPipeline

namespace PAPipeline

/-! Lemmas about the dependency-filtering fixed point and the sets of
active fields. -/

theorem depStep_sublist (cands : List EvidenceCandidate) (deps : List FieldDependency)
    (active : List Nat) : (depStep cands deps active).Sublist active :=
  List.filter_sublist active

theorem depFixAux_of_fix {cands : List EvidenceCandidate} {deps : List FieldDependency}
    {active : List Nat} (h : depStep cands deps active = active) :
    ∀ n, depFixAux cands deps n active = active := by
  intro n
  induction n with
  | zero => rfl
  | succ n ih => simp only [depFixAux, h, ih]

theorem depFixAux_fix (cands : List EvidenceCandidate) (deps : List FieldDependency) :
    ∀ (n : Nat) (active : List Nat), active.length ≤ n →
      depStep cands deps (depFixAux cands deps n active) =
        depFixAux cands deps n active := by
  intro n
  induction n with
  | zero =>
    intro active hlen
    have : active = [] := List.eq_nil_of_length_eq_zero (Nat.le_zero.mp hlen)
    subst this
    rfl
  | succ n ih =>
    intro active hlen
    by_cases hfix : depStep cands deps active = active
    · rw [depFixAux, hfix, depFixAux_of_fix hfix n, hfix]
    · have hsub := depStep_sublist cands deps active
      have hlt : (depStep cands deps active).length < active.length := by
        rcases Nat.lt_or_ge (depStep cands deps active).length active.length with h | h
        · exact h
        · exact absurd (hsub.eq_of_length (Nat.le_antisymm hsub.length_le h)) hfix
      simp only [depFixAux]
      exact ih (depStep cands deps active) (by omega)

theorem depFixAux_sublist (cands : List EvidenceCandidate) (deps : List FieldDependency) :
    ∀ (n : Nat) (active : List Nat), (depFixAux cands deps n active).Sublist active := by
  intro n
  induction n with
  | zero => intro active; exact List.Sublist.refl active
  | succ n ih =>
    intro active
    exact (ih (depStep cands deps active)).trans (depStep_sublist cands deps active)

theorem finalActive_fix (fields : List FormField) (groups : List FieldGroup)
    (deps : List FieldDependency) (minConf : Nat) (cands : List EvidenceCandidate) :
    depStep cands deps (finalActive fields groups deps minConf cands) =
      finalActive fields groups deps minConf cands :=
  depFixAux_fix cands deps _ _ (Nat.le_refl _)

theorem mem_finalActive_depOk {fields : List FormField} {groups : List FieldGroup}
    {deps : List FieldDependency} {minConf : Nat} {cands : List EvidenceCandidate}
    {fid : Nat} (h : fid ∈ finalActive fields groups deps minConf cands) :
    depOk cands deps (finalActive fields groups deps minConf cands) fid = true := by
  have hfix := finalActive_fix fields groups deps minConf cands
  unfold depStep at hfix
  rw [List.filter_eq_self] at hfix
  exact hfix fid h

theorem finalActive_sub_active2 {fields : List FormField} {groups : List FieldGroup}
    {deps : List FieldDependency} {minConf : Nat} {cands : List EvidenceCandidate}
    {fid : Nat} (h : fid ∈ finalActive fields groups deps minConf cands) :
    fid ∈ activeAfterStep2 fields groups minConf cands :=
  (depFixAux_sublist cands deps _ _).subset h

theorem mem_active2_elim {fields : List FormField} {groups : List FieldGroup}
    {minConf : Nat} {cands : List EvidenceCandidate} {fid : Nat}
    (h : fid ∈ activeAfterStep2 fields groups minConf cands) :
    ∃ f ∈ fields, f.id = fid ∧
      activeAfterExclusivity fields groups minConf cands fid = true := by
  unfold activeAfterStep2 at h
  rcases List.mem_map.mp h with ⟨f, hf, hid⟩
  rcases List.mem_filter.mp hf with ⟨hmem, hpred⟩
  exact ⟨f, hmem, hid, hid ▸ hpred⟩

theorem activeAfterExclusivity_survives {fields : List FormField}
    {groups : List FieldGroup} {minConf : Nat} {cands : List EvidenceCandidate}
    {fid : Nat} (h : activeAfterExclusivity fields groups minConf cands fid = true) :
    survives minConf cands fid = true := by
  unfold activeAfterExclusivity at h
  rw [Bool.and_eq_true] at h
  exact h.1

theorem activeAfterExclusivity_winner {fields : List FormField}
    {groups : List FieldGroup} {minConf : Nat} {cands : List EvidenceCandidate}
    {fid : Nat} {g : FieldGroup}
    (h : activeAfterExclusivity fields groups minConf cands fid = true)
    (hg : g ∈ groups) (hex : g.exclusive = true) (hmem : fid ∈ g.members) :
    (groupWinnerField fields minConf cands g).map (fun w => w.id) = some fid := by
  unfold activeAfterExclusivity at h
  rw [Bool.and_eq_true] at h
  have hall := h.2
  rw [List.all_eq_true] at hall
  have hg2 := hall g hg
  rw [hex] at hg2
  simp only [Bool.not_true, Bool.false_or] at hg2
  rw [Bool.or_eq_true] at hg2
  rcases hg2 with hbad | hgood
  · rw [Bool.not_eq_true', decide_eq_false_iff_not] at hbad
    exact absurd hmem hbad
  · exact of_decide_eq_true hgood

theorem survives_elim {minConf : Nat} {cands : List EvidenceCandidate} {fid : Nat}
    (h : survives minConf cands fid = true) :
    ∃ c ∈ cands, c.fieldId = fid ∧ minConf ≤ c.confidence := by
  unfold survives at h
  rw [List.any_eq_true] at h
  rcases h with ⟨c, hc, hcond⟩
  rw [Bool.and_eq_true] at hcond
  exact ⟨c, hc, beq_iff_eq.mp hcond.1, of_decide_eq_true hcond.2⟩

theorem survives_intro {minConf : Nat} {cands : List EvidenceCandidate} {fid : Nat}
    {c : EvidenceCandidate} (hc : c ∈ cands) (hid : c.fieldId = fid)
    (hconf : minConf ≤ c.confidence) : survives minConf cands fid = true := by
  unfold survives
  rw [List.any_eq_true]
  exact ⟨c, hc, by rw [Bool.and_eq_true]; exact ⟨beq_iff_eq.mpr hid, decide_eq_true hconf⟩⟩

theorem foldl_best_le (t : List EvidenceCandidate) (h : EvidenceCandidate) :
    ∀ c ∈ h :: t, c.confidence ≤
      (t.foldl (fun b c => if b.confidence < c.confidence then c else b) h).confidence := by
  induction t generalizing h with
  | nil =>
    intro c hc
    rcases List.mem_cons.mp hc with hc | hc
    · exact hc ▸ Nat.le_refl _
    · exact absurd hc (List.not_mem_nil c)
  | cons x t ih =>
    intro c hc
    simp only [List.foldl_cons]
    have hhead : (if h.confidence < x.confidence then x else h).confidence ≤
        (t.foldl (fun b c => if b.confidence < c.confidence then c else b)
          (if h.confidence < x.confidence then x else h)).confidence :=
      ih _ _ (List.mem_cons_self _ _)
    rcases List.mem_cons.mp hc with hc1 | hc2
    · subst hc1
      refine Nat.le_trans ?_ hhead
      split_ifs with hlt
      · exact Nat.le_of_lt hlt
      · exact Nat.le_refl _
    · rcases List.mem_cons.mp hc2 with hc3 | hc4
      · subst hc3
        refine Nat.le_trans ?_ hhead
        split_ifs with hlt
        · exact Nat.le_refl _
        · exact Nat.le_of_not_lt hlt
      · exact ih _ c (List.mem_cons_of_mem _ hc4)

theorem le_bestConfidence {cands : List EvidenceCandidate} {fid : Nat}
    {c : EvidenceCandidate} (hc : c ∈ cands) (hid : c.fieldId = fid) :
    c.confidence ≤ bestConfidence cands fid := by
  have hmem : c ∈ candidatesFor cands fid :=
    List.mem_filter.mpr ⟨hc, beq_iff_eq.mpr hid⟩
  unfold bestConfidence bestCandidate
  rcases heq : candidatesFor cands fid with _ | ⟨h, t⟩
  · rw [heq] at hmem; exact absurd hmem (List.not_mem_nil c)
  · rw [heq] at hmem
    exact foldl_best_le t h c hmem

end PAPipeline

namespace PAPipeline

/-! Lemmas about the resolver's outputs and the degenerate inputs used by
the error-handling scenarios. -/

theorem foldl_best_mem (t : List EvidenceCandidate) (h : EvidenceCandidate) :
    t.foldl (fun b c => if b.confidence < c.confidence then c else b) h ∈ h :: t := by
  induction t generalizing h with
  | nil => simp
  | cons x t ih =>
    simp only [List.foldl_cons]
    rcases List.mem_cons.mp (ih (if h.confidence < x.confidence then x else h)) with hm | hm
    · rw [hm]
      split_ifs
      · exact List.mem_cons_of_mem _ (List.mem_cons_self _ _)
      · exact List.mem_cons_self _ _
    · exact List.mem_cons_of_mem _ (List.mem_cons_of_mem _ hm)

theorem bestCandidate_mem {cands : List EvidenceCandidate} {fid : Nat}
    {c : EvidenceCandidate} (h : bestCandidate cands fid = some c) :
    c ∈ cands ∧ c.fieldId = fid := by
  unfold bestCandidate at h
  rcases heq : candidatesFor cands fid with _ | ⟨x, t⟩ <;> rw [heq] at h
  · exact absurd h (by simp)
  · have hc := Option.some.inj h
    have hm : c ∈ x :: t := hc ▸ foldl_best_mem t x
    rw [← heq] at hm
    rcases List.mem_filter.mp hm with ⟨hmem, hbeq⟩
    exact ⟨hmem, beq_iff_eq.mp hbeq⟩

theorem mem_resolvedFields_elim {fields : List FormField} {groups : List FieldGroup}
    {deps : List FieldDependency} {minConf : Nat} {cands : List EvidenceCandidate}
    {r : ResolvedField} (h : r ∈ resolvedFields fields groups deps minConf cands) :
    r.fieldId ∈ finalActive fields groups deps minConf cands ∧
      ∃ f ∈ fields, f.id = r.fieldId ∧
        bestCandidate cands r.fieldId = some ⟨r.fieldId, r.value, r.confidence⟩ := by
  unfold resolvedFields at h
  rcases List.mem_filterMap.mp h with ⟨f, hf, heq⟩
  by_cases hin : f.id ∈ finalActive fields groups deps minConf cands
  · rw [if_pos hin] at heq
    rcases hc : bestCandidate cands f.id with _ | c
    · rw [hc] at heq; exact absurd heq (by simp)
    · rw [hc] at heq
      have heq2 := Option.some.inj (by simpa using heq)
      have hfid : r.fieldId = f.id := by rw [← heq2]
      have hval : r.value = c.value := by rw [← heq2]
      have hcon : r.confidence = c.confidence := by rw [← heq2]
      have hcid : c.fieldId = f.id := (bestCandidate_mem hc).2
      refine ⟨hfid ▸ hin, f, hf, (hfid).symm, ?_⟩
      rw [hfid, hc, hval, hcon, ← hcid]
  · rw [if_neg hin] at heq
    exact absurd heq (by simp)

theorem mem_resolvedFields_intro {fields : List FormField} {groups : List FieldGroup}
    {deps : List FieldDependency} {minConf : Nat} {cands : List EvidenceCandidate}
    {f : FormField} {c : EvidenceCandidate} (hf : f ∈ fields)
    (hin : f.id ∈ finalActive fields groups deps minConf cands)
    (hc : bestCandidate cands f.id = some c) :
    ResolvedField.mk f.id c.value c.confidence ∈
      resolvedFields fields groups deps minConf cands := by
  unfold resolvedFields
  refine List.mem_filterMap.mpr ⟨f, hf, ?_⟩
  rw [if_pos hin, hc]
  rfl

theorem mem_missingReport_intro {fields : List FormField} {groups : List FieldGroup}
    {deps : List FieldDependency} {minConf : Nat} {cands : List EvidenceCandidate}
    {f : FormField} {r : Reason} (hf : f ∈ fields)
    (hr : reasonFor fields groups deps minConf cands f = some r) :
    ReportEntry.mk f.id f.label r ∈ missingReport fields groups deps minConf cands := by
  unfold missingReport
  refine List.mem_filterMap.mpr ⟨f, hf, ?_⟩
  rw [hr]
  rfl

theorem mem_missingReport_elim {fields : List FormField} {groups : List FieldGroup}
    {deps : List FieldDependency} {minConf : Nat} {cands : List EvidenceCandidate}
    {e : ReportEntry} (h : e ∈ missingReport fields groups deps minConf cands) :
    ∃ f ∈ fields, f.id = e.fieldId ∧ f.label = e.label ∧
      reasonFor fields groups deps minConf cands f = some e.reason := by
  unfold missingReport at h
  rcases List.mem_filterMap.mp h with ⟨f, hf, heq⟩
  rcases hr : reasonFor fields groups deps minConf cands f with _ | r
  · rw [hr] at heq; exact absurd heq (by simp)
  · rw [hr] at heq
    have heq2 := Option.some.inj (by simpa using heq)
    have h1 : e.fieldId = f.id := by rw [← heq2]
    have h2 : e.label = f.label := by rw [← heq2]
    have h3 : e.reason = r := by rw [← heq2]
    exact ⟨f, hf, h1.symm, h2.symm, h3 ▸ hr⟩

theorem not_finalActive_of_not_survives {fields : List FormField}
    {groups : List FieldGroup} {deps : List FieldDependency} {minConf : Nat}
    {cands : List EvidenceCandidate} {fid : Nat}
    (h : survives minConf cands fid = false) :
    fid ∉ finalActive fields groups deps minConf cands := by
  intro hin
  rcases mem_active2_elim (finalActive_sub_active2 hin) with ⟨f, _, _, hact⟩
  rw [activeAfterExclusivity_survives hact] at h
  simp at h

theorem candidate_exists_not_all {cands : List EvidenceCandidate} {fid : Nat}
    {c : EvidenceCandidate} (hc : c ∈ cands) (hid : c.fieldId = fid) :
    (cands.all fun x => !(x.fieldId == fid)) = false := by
  rcases hall : cands.all fun x => !(x.fieldId == fid) with _ | _
  · rfl
  · rw [List.all_eq_true] at hall
    have := hall c hc
    rw [Bool.not_eq_true', beq_eq_false_iff_ne] at this
    exact absurd hid this

end PAPipeline

namespace PAPipeline

/-! Lemmas about the Text Extractor and the zero-evidence degenerate case. -/

theorem filterMap_all_some {α β : Type} (g : α → β) (l : List α) :
    l.filterMap (fun a => some (g a)) = l.map g := by
  induction l with
  | nil => rfl
  | cons x t ih => simp [List.filterMap_cons, ih]

theorem finalActive_nil_cands (fields : List FormField) (groups : List FieldGroup)
    (deps : List FieldDependency) (minConf : Nat) :
    finalActive fields groups deps minConf [] = [] := by
  have h2 : activeAfterStep2 fields groups minConf [] = [] := by
    simp [activeAfterStep2, activeAfterExclusivity, survives]
  simp [finalActive, h2, depFixAux]

theorem filterMap_congr_mem {α β : Type} {f g : α → Option β} :
    ∀ (l : List α), (∀ a ∈ l, f a = g a) → l.filterMap f = l.filterMap g := by
  intro l h
  induction l with
  | nil => rfl
  | cons x t ih =>
    rw [List.filterMap_cons, List.filterMap_cons, h x (List.mem_cons_self x t),
      ih (fun a ha => h a (List.mem_cons_of_mem x ha))]

theorem resolve_nil_cands (fields : List FormField) (groups : List FieldGroup)
    (deps : List FieldDependency) (minConf : Nat) :
    resolve fields groups deps minConf [] =
      ([], fields.map (fun f => ReportEntry.mk f.id f.label Reason.noEvidence)) := by
  have hfa := finalActive_nil_cands fields groups deps minConf
  have hreason : ∀ f : FormField,
      reasonFor fields groups deps minConf [] f = some Reason.noEvidence := by
    intro f
    unfold reasonFor
    rw [hfa]
    simp
  unfold resolve
  refine Prod.ext ?_ ?_
  · unfold resolvedFields
    refine List.filterMap_eq_nil_iff.mpr ?_
    intro f _
    rw [hfa]
    simp
  · unfold missingReport
    have hcongr : ∀ f ∈ fields,
        (reasonFor fields groups deps minConf [] f).map
            (fun r => ReportEntry.mk f.id f.label r) =
          some (ReportEntry.mk f.id f.label Reason.noEvidence) := by
      intro f _
      rw [hreason f]
      rfl
    exact (filterMap_congr_mem fields hcongr).trans
      (filterMap_all_some (fun f => ReportEntry.mk f.id f.label Reason.noEvidence) fields)

end PAPipeline

namespace PAPipeline

theorem collectBlocks_append (p1 p2 : List PageOutcome) :
    collectBlocks (p1 ++ p2) = collectBlocks p1 ++ collectBlocks p2 := by
  induction p1 with
  | nil => rfl
  | cons h t ih => cases h <;> simp [collectBlocks, ih]

theorem mem_warningsFrom_failed :
    ∀ (p1 : List PageOutcome) (k : Nat) (p2 : List PageOutcome),
      k + p1.length ∈ warningsFrom k (p1 ++ PageOutcome.pageFailed :: p2) := by
  intro p1
  induction p1 with
  | nil =>
    intro k p2
    simp [warningsFrom]
  | cons h t ih =>
    intro k p2
    rw [List.cons_append]
    have hlen : k + (t.length + 1) = (k + 1) + t.length := by omega
    cases h with
    | pageOk bs =>
      show k + (t.length + 1) ∈ warningsFrom (k + 1) (t ++ PageOutcome.pageFailed :: p2)
      rw [hlen]
      exact ih (k + 1) p2
    | pageFailed =>
      show k + (t.length + 1) ∈ k :: warningsFrom (k + 1) (t ++ PageOutcome.pageFailed :: p2)
      refine List.mem_cons.mpr (Or.inr ?_)
      rw [hlen]
      exact ih (k + 1) p2

theorem matchEvidence_nil (fields : List FormField) :
    matchEvidence [] fields = [] := by
  unfold matchEvidence
  induction fields with
  | nil => rfl
  | cons f t ih => simp [ih]

end PAPipeline

namespace PAPipeline

/-! Inversion lemmas for the dependency step and the report reasons. -/

theorem depOk_trigger {cands : List EvidenceCandidate} {deps : List FieldDependency}
    {active : List Nat} {fid : Nat} {d : FieldDependency} (hd : d ∈ deps)
    (hdep : fid ∈ d.dependents) (h : depOk cands deps active fid = true) :
    triggerActive cands active d = true := by
  unfold depOk at h
  rw [List.all_eq_true] at h
  have h2 := h d hd
  rw [Bool.or_eq_true] at h2
  rcases h2 with hb | hok
  · rw [Bool.not_eq_true', decide_eq_false_iff_not] at hb
    exact absurd hdep hb
  · exact hok

theorem triggerActive_elim {cands : List EvidenceCandidate} {active : List Nat}
    {d : FieldDependency} (h : triggerActive cands active d = true) :
    d.triggerField ∈ active ∧
      ∃ c, bestCandidate cands d.triggerField = some c ∧ c.value = d.triggerValue := by
  unfold triggerActive at h
  rw [Bool.and_eq_true] at h
  refine ⟨of_decide_eq_true h.1, ?_⟩
  rcases hb : bestCandidate cands d.triggerField with _ | c
  · rw [hb] at h
    exact absurd h.2 (by simp)
  · rw [hb] at h
    exact ⟨c, rfl, of_decide_eq_true h.2⟩

theorem reasonFor_below_elim {fields : List FormField} {groups : List FieldGroup}
    {deps : List FieldDependency} {minConf : Nat} {cands : List EvidenceCandidate}
    {f : FormField}
    (h : reasonFor fields groups deps minConf cands f =
      some Reason.belowConfidenceThreshold) :
    survives minConf cands f.id = false := by
  unfold reasonFor at h
  split_ifs at h <;> simp_all

end PAPipeline

namespace PAPipeline

/-- Claim C1: for every resolution produced by the Conflict Resolver, and
for every FieldGroup tagged exclusive, at most one member field of that
group is active in the final ResolvedField set, regardless of the
EvidenceCandidate input: any two entries of the resolved set whose field
ids are members of the group carry the same field id. -/
theorem exclusive_group_at_most_one_active
    (fields : List FormField) (groups : List FieldGroup) (deps : List FieldDependency)
    (minConf : Nat) (cands : List EvidenceCandidate) (g : FieldGroup)
    (hg : g ∈ groups) (hex : g.exclusive = true) (r1 r2 : ResolvedField)
    (h1 : r1 ∈ (resolve fields groups deps minConf cands).1)
    (h2 : r2 ∈ (resolve fields groups deps minConf cands).1)
    (m1 : r1.fieldId ∈ g.members) (m2 : r2.fieldId ∈ g.members) :
    r1.fieldId = r2.fieldId := by
  have e1 := (mem_resolvedFields_elim h1).1
  have e2 := (mem_resolvedFields_elim h2).1
  rcases mem_active2_elim (finalActive_sub_active2 e1) with ⟨f1, _, _, hact1⟩
  rcases mem_active2_elim (finalActive_sub_active2 e2) with ⟨f2, _, _, hact2⟩
  have hw1 := activeAfterExclusivity_winner hact1 hg hex m1
  have hw2 := activeAfterExclusivity_winner hact2 hg hex m2
  rw [hw1] at hw2
  exact Option.some.inj hw2

/-- Witness for C1: the spec's exclusive-group scenario, where NewPatient
(field 0, confidence 0.80) and ExistingPatient (field 1, confidence 0.60)
share one exclusive group and field 0 is the single active member. -/
theorem exclusive_group_at_most_one_active_witness :
    (ResolvedField.mk 0 "Yes" 80).fieldId = (ResolvedField.mk 0 "Yes" 80).fieldId :=
  exclusive_group_at_most_one_active
    [⟨0, "NewPatient", 0, 0⟩, ⟨1, "ExistingPatient", 0, 10⟩]
    [⟨[0, 1], true⟩] [] 50 [⟨0, "Yes", 80⟩, ⟨1, "Yes", 60⟩] ⟨[0, 1], true⟩
    (by decide) (by decide) ⟨0, "Yes", 80⟩ ⟨0, "Yes", 80⟩
    (by decide) (by decide) (by decide) (by decide)

/-- Claim C7: running the Conflict Resolver twice on the same
EvidenceCandidate set, with the same FieldGroup and FieldDependency sets
(and the same form fields and threshold), yields the identical
ResolvedField set and the identical MissingFieldReport. -/
theorem resolver_idempotent
    (fields1 fields2 : List FormField) (groups1 groups2 : List FieldGroup)
    (deps1 deps2 : List FieldDependency) (minConf1 minConf2 : Nat)
    (cands1 cands2 : List EvidenceCandidate)
    (hf : fields1 = fields2) (hg : groups1 = groups2) (hd : deps1 = deps2)
    (hm : minConf1 = minConf2) (hc : cands1 = cands2) :
    (resolve fields1 groups1 deps1 minConf1 cands1).1 =
      (resolve fields2 groups2 deps2 minConf2 cands2).1 ∧
    (resolve fields1 groups1 deps1 minConf1 cands1).2 =
      (resolve fields2 groups2 deps2 minConf2 cands2).2 := by
  subst hf hg hd hm hc
  exact ⟨rfl, rfl⟩

/-- Witness for C7: two runs on the scenario inputs coincide. -/
theorem resolver_idempotent_witness :
    (resolve [⟨0, "NewPatient", 0, 0⟩] [⟨[0], true⟩] [] 50 [⟨0, "Yes", 80⟩]).1 =
      (resolve [⟨0, "NewPatient", 0, 0⟩] [⟨[0], true⟩] [] 50 [⟨0, "Yes", 80⟩]).1 ∧
    (resolve [⟨0, "NewPatient", 0, 0⟩] [⟨[0], true⟩] [] 50 [⟨0, "Yes", 80⟩]).2 =
      (resolve [⟨0, "NewPatient", 0, 0⟩] [⟨[0], true⟩] [] 50 [⟨0, "Yes", 80⟩]).2 :=
  resolver_idempotent _ _ _ _ _ _ _ _ _ _ rfl rfl rfl rfl rfl

end PAPipeline

namespace PAPipeline

/-- Claim C3: in step 1, a field whose best candidate confidence equals
exactly the configured minConfidence threshold is retained (it survives
and never appears in the report as below-confidence-threshold), while a
field whose best candidate is one unit below the threshold is excluded
with report reason below-confidence-threshold: the comparison is
inclusive. -/
theorem min_confidence_threshold_inclusive
    (fields : List FormField) (groups : List FieldGroup) (deps : List FieldDependency)
    (minConf : Nat) (cands : List EvidenceCandidate) (f : FormField) (hf : f ∈ fields) :
    ((∃ c ∈ cands, c.fieldId = f.id ∧ c.confidence = minConf) →
       survives minConf cands f.id = true ∧
       ReportEntry.mk f.id f.label Reason.belowConfidenceThreshold ∉
         (resolve fields groups deps minConf cands).2)
    ∧ ((∃ c ∈ cands, c.fieldId = f.id) →
       bestConfidence cands f.id + 1 = minConf →
       ReportEntry.mk f.id f.label Reason.belowConfidenceThreshold ∈
         (resolve fields groups deps minConf cands).2) := by
  constructor
  · rintro ⟨c, hc, hcid, hconf⟩
    have hs : survives minConf cands f.id = true :=
      survives_intro hc hcid (Nat.le_of_eq hconf.symm)
    refine ⟨hs, ?_⟩
    intro hmem
    rcases mem_missingReport_elim hmem with ⟨f2, _, hid, _, hres⟩
    have hns := reasonFor_below_elim hres
    rw [hid] at hns
    rw [hs] at hns
    exact Bool.noConfusion hns
  · rintro ⟨c, hc, hcid⟩ hbest
    have hns : survives minConf cands f.id = false := by
      rcases hb : survives minConf cands f.id with _ | _
      · rfl
      · rcases survives_elim hb with ⟨c2, hc2, hcid2, hconf2⟩
        have := le_bestConfidence hc2 hcid2
        omega
    have hreason : reasonFor fields groups deps minConf cands f =
        some Reason.belowConfidenceThreshold := by
      unfold reasonFor
      simp [not_finalActive_of_not_survives hns, candidate_exists_not_all hc hcid, hns]
    exact mem_missingReport_intro hf hreason

/-- Witness for C3: with the default-style threshold 50, a single
candidate at exactly 50 survives; with the best candidate at 49 the
field is reported below-confidence-threshold. -/
theorem min_confidence_threshold_inclusive_witness :
    (survives 50 [⟨0, "v", 50⟩] (FormField.mk 0 "F" 0 0).id = true ∧
       ReportEntry.mk 0 "F" Reason.belowConfidenceThreshold ∉
         (resolve [⟨0, "F", 0, 0⟩] [] [] 50 [⟨0, "v", 50⟩]).2) ∧
    ReportEntry.mk 0 "F" Reason.belowConfidenceThreshold ∈
      (resolve [⟨0, "F", 0, 0⟩] [] [] 50 [⟨0, "v", 49⟩]).2 :=
  ⟨(min_confidence_threshold_inclusive [⟨0, "F", 0, 0⟩] [] [] 50 [⟨0, "v", 50⟩]
      ⟨0, "F", 0, 0⟩ (by decide)).1
    ⟨⟨0, "v", 50⟩, by decide, by decide, by decide⟩,
   (min_confidence_threshold_inclusive [⟨0, "F", 0, 0⟩] [] [] 50 [⟨0, "v", 49⟩]
      ⟨0, "F", 0, 0⟩ (by decide)).2
    ⟨⟨0, "v", 49⟩, by decide, by decide⟩ (by decide)⟩

end PAPipeline

namespace PAPipeline

/-- Claim C4: for every exclusive FieldGroup with surviving candidates,
the Conflict Resolver activates exactly the member with the
highest-confidence candidate: any surviving member that is not the
selected winner is reported blank with reason excluded-by-exclusivity
even though it cleared the threshold, the winner's best confidence
bounds every surviving member's, and in the spec's scenario (one
exclusive group, NewPatient at 0.80 and ExistingPatient at 0.60)
NewPatient is active and ExistingPatient is excluded by exclusivity. -/
theorem exclusive_group_highest_wins :
    (∀ (fields : List FormField) (groups : List FieldGroup) (deps : List FieldDependency)
       (minConf : Nat) (cands : List EvidenceCandidate) (g : FieldGroup) (f : FormField),
       g ∈ groups → g.exclusive = true → f ∈ fields → f.id ∈ g.members →
       survives minConf cands f.id = true →
       (groupWinnerField fields minConf cands g).map (fun w => w.id) ≠ some f.id →
       ReportEntry.mk f.id f.label Reason.excludedByExclusivity ∈
         (resolve fields groups deps minConf cands).2)
    ∧ (∀ (fields : List FormField) (minConf : Nat) (cands : List EvidenceCandidate)
        (g : FieldGroup) (w f : FormField),
        groupWinnerField fields minConf cands g = some w →
        f ∈ fields → f.id ∈ g.members → survives minConf cands f.id = true →
        bestConfidence cands f.id ≤ bestConfidence cands w.id)
    ∧ resolve [⟨0, "NewPatient", 0, 0⟩, ⟨1, "ExistingPatient", 0, 10⟩]
        [⟨[0, 1], true⟩] [] 50 [⟨0, "Yes", 80⟩, ⟨1, "Yes", 60⟩] =
      ([⟨0, "Yes", 80⟩], [⟨1, "ExistingPatient", Reason.excludedByExclusivity⟩]) := by
  refine ⟨?_, ?_, by decide⟩
  · intro fields groups deps minConf cands g f hg hex hf hmem hsurv hne
    have hnotfin : f.id ∉ finalActive fields groups deps minConf cands := by
      intro hin
      rcases mem_active2_elim (finalActive_sub_active2 hin) with ⟨f2, _, _, hact⟩
      exact hne (activeAfterExclusivity_winner hact hg hex hmem)
    have hactf : activeAfterExclusivity fields groups minConf cands f.id = false := by
      rcases hb : activeAfterExclusivity fields groups minConf cands f.id with _ | _
      · rfl
      · exact absurd (activeAfterExclusivity_winner hb hg hex hmem) hne
    rcases survives_elim hsurv with ⟨c, hc, hcid, _⟩
    have hreason : reasonFor fields groups deps minConf cands f =
        some Reason.excludedByExclusivity := by
      unfold reasonFor
      simp [hnotfin, candidate_exists_not_all hc hcid, hsurv, hactf]
    exact mem_missingReport_intro hf hreason
  · intro fields minConf cands g w f hw hf hmem hsurv
    have hfm : f ∈ survivingMembers fields minConf cands g :=
      List.mem_filter.mpr ⟨hf, by
        rw [Bool.and_eq_true]
        exact ⟨decide_eq_true hmem, hsurv⟩⟩
    rcases groupWinnerField_beats hw hfm with hlt | ⟨heq, _⟩
    · exact Nat.le_of_lt hlt
    · exact Nat.le_of_eq heq

/-- Witness for C4: the scenario inputs instantiate the two quantified
conjuncts — ExistingPatient (field 1) is excluded by exclusivity, and
its confidence 60 is bounded by the winner's 80. -/
theorem exclusive_group_highest_wins_witness :
    ReportEntry.mk 1 "ExistingPatient" Reason.excludedByExclusivity ∈
      (resolve [⟨0, "NewPatient", 0, 0⟩, ⟨1, "ExistingPatient", 0, 10⟩]
        [⟨[0, 1], true⟩] [] 50 [⟨0, "Yes", 80⟩, ⟨1, "Yes", 60⟩]).2 ∧
    bestConfidence [⟨0, "Yes", 80⟩, ⟨1, "Yes", 60⟩]
        (FormField.mk 1 "ExistingPatient" 0 10).id ≤
      bestConfidence [⟨0, "Yes", 80⟩, ⟨1, "Yes", 60⟩] (FormField.mk 0 "NewPatient" 0 0).id :=
  ⟨exclusive_group_highest_wins.1
      [⟨0, "NewPatient", 0, 0⟩, ⟨1, "ExistingPatient", 0, 10⟩]
      [⟨[0, 1], true⟩] [] 50 [⟨0, "Yes", 80⟩, ⟨1, "Yes", 60⟩] ⟨[0, 1], true⟩
      ⟨1, "ExistingPatient", 0, 10⟩ (by decide) (by decide) (by decide) (by decide)
      (by decide) (by decide),
   exclusive_group_highest_wins.2.1
      [⟨0, "NewPatient", 0, 0⟩, ⟨1, "ExistingPatient", 0, 10⟩] 50
      [⟨0, "Yes", 80⟩, ⟨1, "Yes", 60⟩] ⟨[0, 1], true⟩
      ⟨0, "NewPatient", 0, 0⟩ ⟨1, "ExistingPatient", 0, 10⟩
      (by decide) (by decide) (by decide) (by decide)⟩

/-- Claim C5: when two candidates within one exclusive group have
exactly equal confidence, the resolver deterministically selects the
field that sorts first in document order (page, then top-to-bottom
position): no equal-confidence surviving member precedes the selected
winner, and in the tied scenario (two fields at 0.70, the second listed
field on the earlier page) the document-order-earlier field is the one
resolved. -/
theorem exclusive_group_tie_document_order :
    (∀ (fields : List FormField) (minConf : Nat) (cands : List EvidenceCandidate)
       (g : FieldGroup) (w f : FormField),
       groupWinnerField fields minConf cands g = some w →
       f ∈ fields → f.id ∈ g.members → survives minConf cands f.id = true →
       bestConfidence cands f.id = bestConfidence cands w.id →
       docBefore f w = false ∧ w ∈ survivingMembers fields minConf cands g)
    ∧ resolve [⟨5, "OptionA", 1, 0⟩, ⟨6, "OptionB", 0, 0⟩] [⟨[5, 6], true⟩] [] 50
        [⟨5, "x", 70⟩, ⟨6, "y", 70⟩] =
      ([⟨6, "y", 70⟩], [⟨5, "OptionA", Reason.excludedByExclusivity⟩]) := by
  refine ⟨?_, by decide⟩
  intro fields minConf cands g w f hw hf hmem hsurv heq
  have hfm : f ∈ survivingMembers fields minConf cands g :=
    List.mem_filter.mpr ⟨hf, by
      rw [Bool.and_eq_true]
      exact ⟨decide_eq_true hmem, hsurv⟩⟩
  rcases groupWinnerField_beats hw hfm with hlt | ⟨_, hdoc⟩
  · rw [heq] at hlt
    exact absurd hlt (Nat.lt_irrefl _)
  · exact ⟨hdoc, groupWinnerField_mem hw⟩

/-- Witness for C5: in the tied scenario the winner is OptionB (field 6,
page 0), and OptionA (field 5, page 1) does not precede it in document
order. -/
theorem exclusive_group_tie_document_order_witness :
    docBefore ⟨5, "OptionA", 1, 0⟩ ⟨6, "OptionB", 0, 0⟩ = false ∧
    FormField.mk 6 "OptionB" 0 0 ∈
      survivingMembers [⟨5, "OptionA", 1, 0⟩, ⟨6, "OptionB", 0, 0⟩] 50
        [⟨5, "x", 70⟩, ⟨6, "y", 70⟩] ⟨[5, 6], true⟩ :=
  exclusive_group_tie_document_order.1
    [⟨5, "OptionA", 1, 0⟩, ⟨6, "OptionB", 0, 0⟩] 50 [⟨5, "x", 70⟩, ⟨6, "y", 70⟩]
    ⟨[5, 6], true⟩ ⟨6, "OptionB", 0, 0⟩ ⟨5, "OptionA", 1, 0⟩
    (by decide) (by decide) (by decide) (by decide) (by decide)

end PAPipeline

namespace PAPipeline

/-- Claim C2: for every FieldDependency and every resolution, a
dependent field is never active unless its trigger is active with the
dependency's required value (every resolved dependent comes with a
resolved trigger carrying that value); and a dependent of an untriggered
dependency stays unfilled no matter how high its candidate confidence is
— it survives the threshold and the exclusivity step yet is not active —
and is reported with reason excluded-by-dependency. -/
theorem dependency_gating
    (fields : List FormField) (groups : List FieldGroup) (deps : List FieldDependency)
    (minConf : Nat) (cands : List EvidenceCandidate) (d : FieldDependency)
    (hd : d ∈ deps) :
    (∀ r ∈ (resolve fields groups deps minConf cands).1, r.fieldId ∈ d.dependents →
       ∃ t ∈ (resolve fields groups deps minConf cands).1,
         t.fieldId = d.triggerField ∧ t.value = d.triggerValue)
    ∧ (∀ f ∈ fields, f.id ∈ d.dependents →
       triggerActive cands (finalActive fields groups deps minConf cands) d = false →
       survives minConf cands f.id = true →
       activeAfterExclusivity fields groups minConf cands f.id = true →
       f.id ∉ finalActive fields groups deps minConf cands ∧
       ReportEntry.mk f.id f.label Reason.excludedByDependency ∈
         (resolve fields groups deps minConf cands).2) := by
  constructor
  · intro r hr hdep
    have hin := (mem_resolvedFields_elim hr).1
    have hta := depOk_trigger hd hdep (mem_finalActive_depOk hin)
    rcases triggerActive_elim hta with ⟨htin, c, hbc, hval⟩
    rcases mem_active2_elim (finalActive_sub_active2 htin) with ⟨tf, htf, htfid, _⟩
    refine ⟨⟨tf.id, c.value, c.confidence⟩, ?_, ?_, hval⟩
    · exact mem_resolvedFields_intro htf (htfid ▸ htin) (htfid ▸ hbc)
    · exact htfid
  · intro f hf hdep hta hsurv hact
    have hnot : f.id ∉ finalActive fields groups deps minConf cands := by
      intro hin
      have htrue := depOk_trigger hd hdep (mem_finalActive_depOk hin)
      rw [hta] at htrue
      exact Bool.noConfusion htrue
    refine ⟨hnot, ?_⟩
    rcases survives_elim hsurv with ⟨c, hc, hcid, _⟩
    have hreason : reasonFor fields groups deps minConf cands f =
        some Reason.excludedByDependency := by
      unfold reasonFor
      simp [hnot, candidate_exists_not_all hc hcid, hsurv, hact]
    exact mem_missingReport_intro hf hreason

/-- Witness for C2: the spec's scenario — dependency `NewPatient(true) →
NewPatientDate`, no candidate for the trigger, a 0.95-confidence
candidate for the dependent — leaves NewPatientDate unfilled and
reported as excluded-by-dependency. -/
theorem dependency_gating_witness :
    (FormField.mk 1 "NewPatientDate" 0 10).id ∉
      finalActive [⟨0, "NewPatient", 0, 0⟩, ⟨1, "NewPatientDate", 0, 10⟩] []
        [⟨0, "true", [1]⟩] 50 [⟨1, "2024-01-01", 95⟩] ∧
    ReportEntry.mk 1 "NewPatientDate" Reason.excludedByDependency ∈
      (resolve [⟨0, "NewPatient", 0, 0⟩, ⟨1, "NewPatientDate", 0, 10⟩] []
        [⟨0, "true", [1]⟩] 50 [⟨1, "2024-01-01", 95⟩]).2 :=
  (dependency_gating [⟨0, "NewPatient", 0, 0⟩, ⟨1, "NewPatientDate", 0, 10⟩] []
      [⟨0, "true", [1]⟩] 50 [⟨1, "2024-01-01", 95⟩] ⟨0, "true", [1]⟩
      (by decide)).2
    ⟨1, "NewPatientDate", 0, 10⟩ (by decide) (by decide) (by decide) (by decide)
    (by decide)

end PAPipeline

namespace PAPipeline

/-- Claim C6: in the Text Extractor, an OCR failure on a single page
yields zero TextBlocks for that page plus a recorded page-level warning
while extraction continues; ExtractionFailed is signalled exactly when
all pages of a document fail; and when OCR fails on every page of the
referral package while the form side parses successfully, the case
pipeline raises no ExtractionFailed and every field is reported with
reason no-evidence. -/
theorem ocr_failure_degrades_not_fatal :
    (∀ p1 p2 : List PageOutcome,
       ((p1 ++ PageOutcome.pageFailed :: p2).all pageIsFailed) = false →
       extractText (p1 ++ PageOutcome.pageFailed :: p2) =
         Except.ok (collectBlocks p1 ++ collectBlocks p2,
           warningsFrom 0 (p1 ++ PageOutcome.pageFailed :: p2)) ∧
       p1.length ∈ warningsFrom 0 (p1 ++ PageOutcome.pageFailed :: p2))
    ∧ (∀ pages : List PageOutcome,
        extractText pages = Except.error ExtractError.extractionFailed ↔
          pages.all pageIsFailed = true)
    ∧ (∀ (fields : List FormField) (groups : List FieldGroup)
        (deps : List FieldDependency) (minConf : Nat)
        (formPages referralPages : List PageOutcome),
        formPages.all pageIsFailed = false →
        referralPages.all pageIsFailed = true →
        casePipeline fields groups deps minConf formPages referralPages =
          Except.ok ([],
            fields.map (fun f => ReportEntry.mk f.id f.label Reason.noEvidence))) := by
  refine ⟨?_, ?_, ?_⟩
  · intro p1 p2 hmix
    constructor
    · unfold extractText
      rw [hmix]
      simp [collectBlocks_append, collectBlocks]
    · have := mem_warningsFrom_failed p1 0 p2
      simpa using this
  · intro pages
    rcases hb : pages.all pageIsFailed with _ | _ <;> simp [extractText, hb]
  · intro fields groups deps minConf formPages referralPages hform href
    have h1 : extractText formPages =
        Except.ok (collectBlocks formPages, warningsFrom 0 formPages) := by
      simp [extractText, hform]
    have h2 : extractText referralPages = Except.error ExtractError.extractionFailed := by
      simp [extractText, href]
    unfold casePipeline
    rw [h1, h2]
    simp [matchEvidence_nil, resolve_nil_cands]

/-- Witness for C6: a two-page document whose second page fails OCR
still extracts with a warning for page 1; a document whose single page
fails signals ExtractionFailed; and a readable one-field form paired
with an unreadable referral resolves to an empty fill with a no-evidence
report and no error. -/
theorem ocr_failure_degrades_not_fatal_witness :
    (extractText [PageOutcome.pageOk [⟨"hello", 0, false, 100⟩], PageOutcome.pageFailed] =
       Except.ok (collectBlocks [PageOutcome.pageOk [⟨"hello", 0, false, 100⟩]] ++
           collectBlocks [],
         warningsFrom 0 [PageOutcome.pageOk [⟨"hello", 0, false, 100⟩],
           PageOutcome.pageFailed]) ∧
     (1 : Nat) ∈ warningsFrom 0 [PageOutcome.pageOk [⟨"hello", 0, false, 100⟩],
       PageOutcome.pageFailed]) ∧
    (extractText [PageOutcome.pageFailed] =
        Except.error ExtractError.extractionFailed ↔
      [PageOutcome.pageFailed].all pageIsFailed = true) ∧
    casePipeline [⟨0, "Name", 0, 0⟩] [] [] 50
        [PageOutcome.pageOk [⟨"hello", 0, false, 100⟩]] [PageOutcome.pageFailed] =
      Except.ok ([], [⟨0, "Name", Reason.noEvidence⟩]) := by
  refine ⟨?_, ?_, ?_⟩
  · exact ocr_failure_degrades_not_fatal.1
      [PageOutcome.pageOk [⟨"hello", 0, false, 100⟩]] [] (by decide)
  · exact ocr_failure_degrades_not_fatal.2.1 [PageOutcome.pageFailed]
  · exact ocr_failure_degrades_not_fatal.2.2 [⟨0, "Name", 0, 0⟩] [] [] 50
      [PageOutcome.pageOk [⟨"hello", 0, false, 100⟩]] [PageOutcome.pageFailed]
      (by decide) (by decide)

end PAPipeline

namespace Frontend

/-- Claim C8: a processing request is submitted only when both documents
are present. With `document1` or `document2` null, `handleProcess` issues
no network request and changes nothing but the error message, which
becomes 'Please upload both documents before processing.' (in particular
the status is untouched); with both present, the posted form data
carries document1 under key `referral_document` and document2 under
key `pa_form`. -/
theorem handleProcess_requires_both_documents (s : PAState) (resp : FetchResult) :
    ((s.document1 = none ∨ s.document2 = none) →
       handleProcess s resp =
         ({ s with errorMessage := "Please upload both documents before processing." },
          none))
    ∧ (∀ d1 d2, s.document1 = some d1 → s.document2 = some d2 →
       (handleProcess s resp).2 = some [("referral_document", d1), ("pa_form", d2)]) := by
  constructor
  · intro h
    rcases h1 : s.document1 with _ | d1
    · rcases h2 : s.document2 with _ | d2 <;> simp [handleProcess, h1, h2]
    · rcases h2 : s.document2 with _ | d2
      · simp [handleProcess, h1, h2]
      · exfalso
        rcases h with h | h
        · rw [h1] at h
          exact Option.noConfusion h
        · rw [h2] at h
          exact Option.noConfusion h
  · intro d1 d2 h1 h2
    rcases resp with url | detail | _ <;> simp [handleProcess, h1, h2]

/-- Witness for C8: on the initial state (no documents) with any network
outcome, only the error message is set and no request is issued; with
both documents present the request carries them under the two keys. -/
theorem handleProcess_requires_both_documents_witness :
    handleProcess initialState FetchResult.networkError =
      ({ initialState with
          errorMessage := "Please upload both documents before processing." }, none) ∧
    (handleProcess
        { initialState with document1 := some "ref.pdf", document2 := some "pa.pdf" }
        FetchResult.networkError).2 =
      some [("referral_document", "ref.pdf"), ("pa_form", "pa.pdf")] :=
  ⟨(handleProcess_requires_both_documents initialState FetchResult.networkError).1
      (Or.inl rfl),
   (handleProcess_requires_both_documents
        { initialState with document1 := some "ref.pdf", document2 := some "pa.pdf" }
        FetchResult.networkError).2
      "ref.pdf" "pa.pdf" rfl rfl⟩

/-- Claim C9: `StatusIndicator` is total over its status input: for
every status string, the destructured entry exists — it is the looked-up
map entry when the status is one of the four known keys, and for any
value outside {waiting, processing, done, error} the lookup falls back
to the `waiting` entry, so rendering never dereferences an undefined map
entry. -/
theorem statusIndicator_total_fallback (status : String) :
    (status ∉ ["waiting", "processing", "done", "error"] →
       statusIndicatorEntry status = waitingEntry)
    ∧ ∃ e, statusIndicatorEntry status = e ∧
        (statusMap.lookup status = some e ∨ e = waitingEntry) := by
  constructor
  · intro h
    simp only [List.mem_cons, List.not_mem_nil, or_false, not_or] at h
    obtain ⟨h1, h2, h3, h4⟩ := h
    have hb1 : (status == "waiting") = false := beq_eq_false_iff_ne.mpr h1
    have hb2 : (status == "processing") = false := beq_eq_false_iff_ne.mpr h2
    have hb3 : (status == "done") = false := beq_eq_false_iff_ne.mpr h3
    have hb4 : (status == "error") = false := beq_eq_false_iff_ne.mpr h4
    have hl : statusMap.lookup status = none := by
      simp [statusMap, List.lookup, hb1, hb2, hb3, hb4]
    simp [statusIndicatorEntry, hl]
  · rcases hl : statusMap.lookup status with _ | e
    · exact ⟨waitingEntry, by simp [statusIndicatorEntry, hl], Or.inr rfl⟩
    · exact ⟨e, by simp [statusIndicatorEntry, hl], Or.inl rfl⟩

/-- Witness for C9: an unknown status string such as "bogus" renders the
waiting entry. -/
theorem statusIndicator_total_fallback_witness :
    statusIndicatorEntry "bogus" = waitingEntry :=
  (statusIndicator_total_fallback "bogus").1 (by decide)

/-- Claim C10: `resetForm` restores the component state exactly to its
initial-mount values (both documents null, status 'waiting', result URL
null, empty error message) from every prior state, and is therefore
idempotent. -/
theorem resetForm_restores_initial (s : PAState) :
    resetForm s = initialState ∧ resetForm (resetForm s) = resetForm s :=
  ⟨rfl, rfl⟩

end Frontend
